import Mathlib

/-!
# Fintrack: transaction store and monthly summary

A shallow embedding of `main.go`: the in-memory transaction collection, the
four request handlers (`getTransactions`, `addTransaction`,
`deleteTransaction`, `getMonthlySummary`) and the seed data of
`addTestData`, followed by theorems about them.

Modelling conventions.

* A Go `string` is a sequence of bytes: `GoString`.
* A Go `float64` is an IEEE 754 binary64 value: `F64`, with `+` and `-`
  rounded to nearest, ties to even.
* The global slice `transactions` is threaded through the handlers: each
  handler takes the current collection and returns the new collection
  together with the HTTP response it writes.
* The clock (`time.Now()`) and the result of gin's `ShouldBindJSON` are
  inputs of the handlers.
* A Go `map` is kept as a list of (key, value) entries without repeated
  keys; the order in which Go ranges over a map is unspecified, so a
  response built from such a loop is any reordering of the entries.
-/

namespace Fintrack

/-! ## Go strings -/

/-- A Go string: its bytes, each a number below 256. -/
abbrev GoString := List Nat

/-- The bytes of a string literal made of ASCII characters. -/
def ascii (s : String) : GoString := s.data.map Char.toNat

/-- UTF-8 encoding of a valid code point (Go's `utf8.EncodeRune`). -/
def encodeRune (r : Nat) : GoString :=
  if r < 0x80 then [r]
  else if r < 0x800 then [0xC0 + r / 64, 0x80 + r % 64]
  else if r < 0x10000 then [0xE0 + r / 4096, 0x80 + r / 64 % 64, 0x80 + r % 64]
  else [0xF0 + r / 262144, 0x80 + r / 4096 % 64, 0x80 + r / 64 % 64, 0x80 + r % 64]

/-- Go's conversion `string(x)` of an integer `x`: the UTF-8 encoding of the
code point numbered `x`, and of U+FFFD when `x` is not a valid code point
(negative, above U+10FFFF, or a surrogate). -/
def stringOfInt (x : Int) : GoString :=
  if 0 ≤ x ∧ x ≤ 0x10FFFF ∧ ¬ (0xD800 ≤ x ∧ x ≤ 0xDFFF) then encodeRune x.toNat
  else encodeRune 0xFFFD

/-- The integer `x` numbers a Unicode code point that UTF-8 encodes: it lies
in 0..0x10FFFF and is not a surrogate. Every year in 0..9999 does. -/
def validCodePoint (x : Int) : Prop :=
  0 ≤ x ∧ x ≤ 0x10FFFF ∧ ¬ (0xD800 ≤ x ∧ x ≤ 0xDFFF)

instance (x : Int) : Decidable (validCodePoint x) :=
  inferInstanceAs (Decidable (0 ≤ x ∧ x ≤ 0x10FFFF ∧ ¬ (0xD800 ≤ x ∧ x ≤ 0xDFFF)))

/-- Go's `appendInt` of package `time`: the decimal digits of `x`, padded
with zeros on the left to at least `width` digits, after a minus sign when
`x` is negative. -/
def appendInt (x : Int) (width : Nat) : GoString :=
  let ds : GoString := (Nat.toDigits 10 x.natAbs).map Char.toNat
  (if x < 0 then [45] else []) ++ (List.replicate (width - ds.length) 48 ++ ds)

/-! ## float64 -/

/-- An IEEE 754 binary64 value. `finite neg m e` is the number
`(-1)^neg * m * 2^(e - 1074)`; the canonical form of a number has
`m < 2^53`, `e ≤ 2045` and either `e = 0` (zero and subnormal numbers) or
`2^52 ≤ m`. -/
inductive F64 where
  | finite (neg : Bool) (m : Nat) (e : Nat)
  | inf (neg : Bool)
  | nan
  deriving DecidableEq, Repr

namespace F64

/-- Positive zero, the zero value of a Go `float64`. -/
def zero : F64 := finite false 0 0

/-- Auxiliary loop of `bitLength`. -/
def bitLengthAux : Nat → Nat → Nat
  | 0, _ => 0
  | fuel + 1, n => if n = 0 then 0 else bitLengthAux fuel (n / 2) + 1

/-- The number of binary digits of `n` (0 for 0). -/
def bitLength (n : Nat) : Nat := bitLengthAux n n

/-- The binary64 value nearest to `(-1)^neg * n * 2^(e - 1074)`, ties to
even; infinity on overflow. -/
def round (neg : Bool) (n e : Nat) : F64 :=
  if n = 0 then finite neg 0 0
  else
    let bits := bitLength n
    if bits ≤ 53 then
      let k := min (53 - bits) e
      if e - k > 2045 then inf neg else finite neg (n * 2 ^ k) (e - k)
    else
      let shift := bits - 53
      let q := n / 2 ^ shift
      let r := n % 2 ^ shift
      let half := 2 ^ (shift - 1)
      let q1 := if r > half ∨ (r = half ∧ q % 2 = 1) then q + 1 else q
      let m1 := if q1 = 2 ^ 53 then 2 ^ 52 else q1
      let e1 := if q1 = 2 ^ 53 then e + shift + 1 else e + shift
      if e1 > 2045 then inf neg else finite neg m1 e1

/-- The float64 value of a non-negative integer constant. -/
def ofNat (n : Nat) : F64 := round false n 1074

/-- Go's `x + y` on float64. -/
def add : F64 → F64 → F64
  | nan, _ => nan
  | _, nan => nan
  | inf a, inf b => if a = b then inf a else nan
  | inf a, finite _ _ _ => inf a
  | finite _ _ _, inf b => inf b
  | finite s1 m1 e1, finite s2 m2 e2 =>
    let e := min e1 e2
    let a := m1 * 2 ^ (e1 - e)
    let b := m2 * 2 ^ (e2 - e)
    if s1 = s2 then round s1 (a + b) e
    else if a = b then finite false 0 0
    else if b < a then round s1 (a - b) e
    else round s2 (b - a) e

/-- Go's unary `-x` on float64. -/
def neg : F64 → F64
  | finite s m e => finite (!s) m e
  | inf s => inf (!s)
  | nan => nan

/-- Go's `x - y` on float64. -/
def sub (x y : F64) : F64 := add x (neg y)

/-- The value `x` is a positive normal number in canonical form, not a power
of two, and lies within half a unit in its last place of the fraction
`num / den`: `x` is a float64 nearest to `num / den`, as a decimal constant
or a JSON number of that value denotes. -/
def IsNearest (x : F64) (num den : Nat) : Prop :=
  match x with
  | finite false m e =>
    m < 2 ^ 53 ∧ e ≤ 2045 ∧ 2 ^ 52 < m ∧
      2 * (m * 2 ^ (e - 1074) * den - num * 2 ^ (1074 - e)) ≤ den * 2 ^ (e - 1074) ∧
      2 * (num * 2 ^ (1074 - e) - m * 2 ^ (e - 1074) * den) ≤ den * 2 ^ (e - 1074)
  | _ => False

instance (x : F64) (num den : Nat) : Decidable (IsNearest x num den) := by
  unfold IsNearest
  split <;> infer_instance

end F64

/-! ## time.Time -/

/-- Go's `time.Month`. -/
inductive Month where
  | January | February | March | April | May | June
  | July | August | September | October | November | December
  deriving DecidableEq, Repr

/-- The number of a month, 1 to 12. -/
def Month.number : Month → Nat
  | .January => 1 | .February => 2 | .March => 3 | .April => 4
  | .May => 5 | .June => 6 | .July => 7 | .August => 8
  | .September => 9 | .October => 10 | .November => 11 | .December => 12

/-- Go's `Month.String`: the English name of the month. -/
def Month.name : Month → GoString
  | .January => ascii "January" | .February => ascii "February"
  | .March => ascii "March" | .April => ascii "April"
  | .May => ascii "May" | .June => ascii "June"
  | .July => ascii "July" | .August => ascii "August"
  | .September => ascii "September" | .October => ascii "October"
  | .November => ascii "November" | .December => ascii "December"

/-- A `time.Time`, by the calendar fields of the instant in its own
location. -/
structure Time where
  year : Int
  month : Month
  day : Nat
  hour : Nat
  minute : Nat
  second : Nat
  nanosecond : Nat
  zoneOffset : Int
  deriving DecidableEq, Repr

/-- Go's `t.Format("January")`: the full month name. -/
def Time.formatJanuary (t : Time) : GoString := t.month.name

/-- Go's `t.Format("20060102150405")`: year, month, day, hour, minute and
second, the year on four digits and the others on two. -/
def Time.format20060102150405 (t : Time) : GoString :=
  appendInt t.year 4 ++ appendInt t.month.number 2 ++ appendInt t.day 2 ++
    appendInt t.hour 2 ++ appendInt t.minute 2 ++ appendInt t.second 2

/-! ## Data model -/

/-- The struct `Transaction`; the fields carry their JSON names. -/
structure Transaction where
  id : GoString
  amount : F64
  category : GoString
  description : GoString
  date : Time
  type : GoString
  deriving DecidableEq, Repr

/-- The struct `MonthlySummary`; the fields carry their JSON names. -/
structure MonthlySummary where
  month : GoString
  year : Int
  totalIncome : F64
  totalExpenses : F64
  netAmount : F64
  deriving DecidableEq, Repr

/-- The JSON value a handler writes. -/
inductive Body where
  | transactions (ts : List Transaction)
  | transaction (t : Transaction)
  | summaries (ss : List MonthlySummary)
  | message (text : GoString)
  | error (text : GoString)
  deriving DecidableEq, Repr

/-- An HTTP response: status code and JSON body. -/
structure Response where
  status : Nat
  body : Body
  deriving DecidableEq, Repr

/-! ## The seed data -/

/-- The constant `45.99` as a float64. -/
def amount4599 : F64 := F64.finite false 0x16FEB851EB851F 1027

/-- The function `addTestData`: appends the three seed records to the
collection. `d5`, `d3` and `d1` are the values of
`time.Now().AddDate(0, 0, -5)`, `time.Now().AddDate(0, 0, -3)` and
`time.Now().AddDate(0, 0, -1)` at the three calls. -/
def addTestData (transactions : List Transaction) (d5 d3 d1 : Time) : List Transaction :=
  let transactions := transactions ++ [{
    id := ascii "1"
    amount := F64.ofNat 1500
    category := ascii "Salary"
    description := ascii "Monthly salary"
    date := d5
    type := ascii "income" }]
  let transactions := transactions ++ [{
    id := ascii "2"
    amount := amount4599
    category := ascii "Groceries"
    description := ascii "Weekly shopping"
    date := d3
    type := ascii "expense" }]
  transactions ++ [{
    id := ascii "3"
    amount := F64.ofNat 25
    category := ascii "Entertainment"
    description := ascii "Movie tickets"
    date := d1
    type := ascii "expense" }]

/-! ## Handlers -/

/-- The handler `getTransactions`: status 200 and the whole collection, in
storage order. -/
def getTransactions (transactions : List Transaction) : Response :=
  ⟨200, .transactions transactions⟩

/-- The handler `addTransaction`. `bound` is the outcome of
`c.ShouldBindJSON(&newTransaction)`: the parsed payload, or the message of
the parse error; `now` is the value of `time.Now()`. Returns the new
collection and the response. -/
def addTransaction (transactions : List Transaction) (bound : Except GoString Transaction)
    (now : Time) : List Transaction × Response :=
  match bound with
  | .error err => (transactions, ⟨400, .error err⟩)
  | .ok newTransaction =>
    let newTransaction := { newTransaction with id := now.format20060102150405 }
    (transactions ++ [newTransaction], ⟨201, .transaction newTransaction⟩)

/-- The loop of `deleteTransaction`: the index `i` at which the range loop
first finds a transaction whose ID equals `id`, if it finds one. -/
def deleteIndex (id : GoString) : List Transaction → Option Nat
  | [] => none
  | transaction :: rest =>
    if transaction.id = id then some 0 else (deleteIndex id rest).map (· + 1)

/-- The handler `deleteTransaction` for the path parameter `id`. On a match
at index `i` the collection becomes
`append(transactions[:i], transactions[i+1:]...)`. Returns the new
collection and the response. -/
def deleteTransaction (transactions : List Transaction) (id : GoString) :
    List Transaction × Response :=
  match deleteIndex id transactions with
  | some i =>
    (transactions.take i ++ transactions.drop (i + 1),
      ⟨200, .message (ascii "Transaction deleted")⟩)
  | none => (transactions, ⟨404, .error (ascii "Transaction not found")⟩)

/-! ## Monthly summary -/

/-- The map `summaryMap` of `getMonthlySummary`: one entry per key, each
holding the record its pointer refers to. -/
abbrev SummaryMap := List (GoString × MonthlySummary)

/-- Map lookup `summaryMap[key]`. -/
def SummaryMap.get : SummaryMap → GoString → Option MonthlySummary
  | [], _ => none
  | (k, v) :: rest, key => if k = key then some v else SummaryMap.get rest key

/-- The record stored under `key` becomes `v`: the effect of writing through
the pointer held under `key`, or of `summaryMap[key] = summary` for a key
that is new. -/
def SummaryMap.set : SummaryMap → GoString → MonthlySummary → SummaryMap
  | [], key, v => [(key, v)]
  | (k, w) :: rest, key, v =>
    if k = key then (k, v) :: rest else (k, w) :: SummaryMap.set rest key v

/-- The grouping key of `getMonthlySummary`: `month + "-" + string(year)`. -/
def summaryKey (month : GoString) (year : Int) : GoString :=
  month ++ ascii "-" ++ stringOfInt year

/-- The grouping key of a transaction. -/
def Transaction.key (transaction : Transaction) : GoString :=
  summaryKey transaction.date.formatJanuary transaction.date.year

/-- One iteration of the loop of `getMonthlySummary` over the
transactions. -/
def summaryStep (summaryMap : SummaryMap) (transaction : Transaction) : SummaryMap :=
  let month := transaction.date.formatJanuary
  let year := transaction.date.year
  let key := month ++ ascii "-" ++ stringOfInt year
  let summary : MonthlySummary :=
    match summaryMap.get key with
    | some summary => summary
    | none =>
      { month := month, year := year, totalIncome := F64.zero,
        totalExpenses := F64.zero, netAmount := F64.zero }
  let summary : MonthlySummary :=
    if transaction.type = ascii "income" then
      { summary with totalIncome := F64.add summary.totalIncome transaction.amount }
    else if transaction.type = ascii "expense" then
      { summary with totalExpenses := F64.add summary.totalExpenses transaction.amount }
    else summary
  let summary : MonthlySummary :=
    { summary with netAmount := F64.sub summary.totalIncome summary.totalExpenses }
  summaryMap.set key summary

/-- The map built by the first loop of `getMonthlySummary`. -/
def buildSummaryMap (transactions : List Transaction) : SummaryMap :=
  transactions.foldl summaryStep []

/-- The slice `summaries` that `getMonthlySummary` builds when its second
loop ranges over the map in the order of the entries. -/
def summariesOf (transactions : List Transaction) : List MonthlySummary :=
  (buildSummaryMap transactions).map Prod.snd

/-- The handler `getMonthlySummary`: `response` is a response the handler may
write for the collection, namely status 200 with the records of the map in
some order. Go leaves the order of a range over a map unspecified, so every
order is possible. -/
def getMonthlySummary (transactions : List Transaction) (response : Response) : Prop :=
  response.status = 200 ∧
    match response.body with
    | .summaries summaries => summaries.Perm (summariesOf transactions)
    | _ => False

instance (transactions : List Transaction) (response : Response) :
    Decidable (getMonthlySummary transactions response) := by
  unfold getMonthlySummary
  split <;> infer_instance

/-- The float64 sum of a list of amounts, added from left to right starting
from the zero value. -/
def F64.sum (amounts : List F64) : F64 := amounts.foldl F64.add F64.zero

/-! ## Groups and their totals

The vocabulary in which the summary is specified: the group of a key, the
total of a kind of transaction within a group, and the record of a group. -/

/-- The group of a key: the transactions of the collection with that
grouping key, in collection order. -/
def groupOf (transactions : List Transaction) (key : GoString) : List Transaction :=
  transactions.filter (fun t => t.key = key)

/-- The float64 sum, in list order from the zero value, of the amounts of the
transactions of `g` whose type is exactly `kind`. -/
def totalOf (kind : GoString) (g : List Transaction) : F64 :=
  F64.sum ((g.filter (fun t => t.type = kind)).map (fun t => t.amount))

/-- The summary record of a non-empty group: the month name and year of its
first transaction, its income and expense totals, and their difference. -/
def groupSummary : List Transaction → Option MonthlySummary
  | [] => none
  | t :: g =>
    some { month := t.date.formatJanuary, year := t.date.year,
           totalIncome := totalOf (ascii "income") (t :: g),
           totalExpenses := totalOf (ascii "expense") (t :: g),
           netAmount := F64.sub (totalOf (ascii "income") (t :: g))
             (totalOf (ascii "expense") (t :: g)) }

/-- The (month name, year) pair of a summary record. -/
def MonthlySummary.monthYear (s : MonthlySummary) : GoString × Int := (s.month, s.year)

/-- The (month name, year) pair of a transaction. -/
def Transaction.monthYear (t : Transaction) : GoString × Int :=
  (t.date.formatJanuary, t.date.year)

/-- The record that one iteration of the loop of `getMonthlySummary` leaves
under the key of the transaction, from the record found there before: the
body of `summaryStep` between the lookup and the write. -/
def stepRecord (found : Option MonthlySummary) (t : Transaction) : MonthlySummary :=
  let summary : MonthlySummary :=
    match found with
    | some summary => summary
    | none =>
      { month := t.date.formatJanuary, year := t.date.year, totalIncome := F64.zero,
        totalExpenses := F64.zero, netAmount := F64.zero }
  let summary : MonthlySummary :=
    if t.type = ascii "income" then
      { summary with totalIncome := F64.add summary.totalIncome t.amount }
    else if t.type = ascii "expense" then
      { summary with totalExpenses := F64.add summary.totalExpenses t.amount }
    else summary
  { summary with netAmount := F64.sub summary.totalIncome summary.totalExpenses }

/-! ## Concrete collections

Inputs at which the theorems below are evaluated. -/

/-- Noon UTC of a day. -/
def noon (year : Int) (month : Month) (day : Nat) : Time :=
  ⟨year, month, day, 12, 0, 0, 0, 0⟩

/-- An income with the given id and amount on the given date. -/
def incomeOn (id : GoString) (amount : F64) (date : Time) : Transaction :=
  { id := id, amount := amount, category := ascii "Test", description := [],
    date := date, type := ascii "income" }

/-- The id assigned on 5 January 2024 at 10:00:01. -/
def idA : GoString := ascii "20240105100001"

/-- The id assigned on 5 January 2024 at 10:00:02. -/
def idB : GoString := ascii "20240105100002"

/-- The id assigned on 5 January 2024 at 10:00:03. -/
def idC : GoString := ascii "20240105100003"

/-- The float64 of the decimal 0.1. -/
def float01 : F64 := F64.finite false 0x1999999999999A 1018

/-- The float64 of the decimal 0.2. -/
def float02 : F64 := F64.finite false 0x1999999999999A 1019

/-- The float64 of the decimal 0.3. -/
def float03 : F64 := F64.finite false 0x13333333333333 1020

/-- The float64 of the decimal 0.6. -/
def float06 : F64 := F64.finite false 0x13333333333333 1021

/-- The float64 next above that of 0.6; it prints as 0.6000000000000001. -/
def float06up : F64 := F64.finite false 0x13333333333334 1021

/-- The float64 of the decimal 70.99. -/
def float7099 : F64 := F64.finite false 0x11BF5C28F5C28F 1028

/-- The float64 next above that of 70.99; it prints as 70.99000000000001. -/
def float7099up : F64 := F64.finite false 0x11BF5C28F5C290 1028

/-- The float64 of the decimal 1429.01. -/
def float142901 : F64 := F64.finite false 0x16540A3D70A3D7 1032

/-- The seed data as created on 1 November 2026: all three dates in October. -/
def seedOctober : List Transaction :=
  addTestData [] (noon 2026 .October 27) (noon 2026 .October 29) (noon 2026 .October 31)

/-- The seed data as created on 2 November 2026: the last date is in November. -/
def seedTwoMonths : List Transaction :=
  addTestData [] (noon 2026 .October 28) (noon 2026 .October 30) (noon 2026 .November 1)

/-- Two incomes in January of the years 55296 and 55297, which are the
surrogate code points U+D800 and U+D801. -/
def surrogateYears : List Transaction :=
  [incomeOn idA (F64.ofNat 1) (noon 55296 .January 1),
   incomeOn idB (F64.ofNat 2) (noon 55297 .January 1)]

/-- Incomes of 0.1, 0.2 and 0.3 on one day. -/
def tenths : List Transaction :=
  [incomeOn idA float01 (noon 2024 .January 1), incomeOn idB float02 (noon 2024 .January 1),
   incomeOn idC float03 (noon 2024 .January 1)]

/-- The same three incomes in the opposite order. -/
def tenthsReversed : List Transaction :=
  [incomeOn idC float03 (noon 2024 .January 1), incomeOn idB float02 (noon 2024 .January 1),
   incomeOn idA float01 (noon 2024 .January 1)]

/-- Incomes in January, February and January of 2024. -/
def winter : List Transaction :=
  [incomeOn idA float01 (noon 2024 .January 1), incomeOn idB float02 (noon 2024 .February 1),
   incomeOn idC float03 (noon 2024 .January 2)]

/-- The collection `winter` with its first two entries swapped. -/
def winterSwapped : List Transaction :=
  [incomeOn idB float02 (noon 2024 .February 1), incomeOn idA float01 (noon 2024 .January 1),
   incomeOn idC float03 (noon 2024 .January 2)]

/-- A parsed payload: an expense of 100 in category Test, with an id of the
client. -/
def payload : Transaction :=
  { id := ascii "from-client", amount := F64.ofNat 100, category := ascii "Test",
    description := [], date := noon 2026 .November 1, type := ascii "expense" }

/-- A second payload, differing from `payload` in its category. -/
def payloadOther : Transaction :=
  { payload with category := ascii "Other" }

/-- The clock reading 2026-11-01 23:05:09. -/
def stamp : Time := ⟨2026, .November, 1, 23, 5, 9, 0, 0⟩

/-- The id assigned at `stamp`. -/
def stampId : GoString := ascii "20261101230509"

/-- The collection after `payload` was added to the empty collection at
`stamp`. -/
def addedOnce : List Transaction := (addTransaction [] (.ok payload) stamp).1

/-- The collection after `payload` and `payloadOther` were added within the
second of `stamp`. -/
def addedTwice : List Transaction := (addTransaction addedOnce (.ok payloadOther) stamp).1

/-- The record of November 2026 in the summary of `seedTwoMonths`. -/
def novemberRecord : MonthlySummary :=
  { month := ascii "November", year := 2026, totalIncome := F64.zero,
    totalExpenses := F64.ofNat 25, netAmount := F64.neg (F64.ofNat 25) }

/-! ## The float64 model -/

/-- The loop of `bitLength` gives 0 on 0, whatever the fuel. -/
theorem bitLengthAux_zero (fuel : Nat) : F64.bitLengthAux fuel 0 = 0 := by
  cases fuel <;> simp [F64.bitLengthAux]

/-- With fuel at least `n`, the loop of `bitLength` counts the binary digits
of a positive `n`. -/
theorem bitLengthAux_bounds (fuel n : Nat) (hf : n ≤ fuel) (hn : 0 < n) :
    2 ^ (F64.bitLengthAux fuel n - 1) ≤ n ∧ n < 2 ^ F64.bitLengthAux fuel n := by
  induction fuel generalizing n with
  | zero => omega
  | succ fuel ih =>
    have hne : n ≠ 0 := by omega
    simp only [F64.bitLengthAux, hne, if_false]
    by_cases h2 : n / 2 = 0
    · rw [h2, bitLengthAux_zero]
      have : n = 1 := by omega
      subst this
      simp
    · obtain ⟨lo, hi⟩ := ih (n / 2) (by omega) (by omega)
      generalize F64.bitLengthAux fuel (n / 2) = b at lo hi ⊢
      cases b with
      | zero => simp at hi; omega
      | succ c =>
        simp only [Nat.add_sub_cancel] at lo ⊢
        rw [pow_succ] at hi ⊢
        rw [pow_succ]
        constructor <;> omega

/-- The function `bitLength` counts binary digits: a positive `n` lies between
`2 ^ (bitLength n - 1)` and `2 ^ bitLength n`. -/
theorem bitLength_bounds (n : Nat) (hn : 0 < n) :
    2 ^ (F64.bitLength n - 1) ≤ n ∧ n < 2 ^ F64.bitLength n :=
  bitLengthAux_bounds n n (Nat.le_refl n) hn

/-! ## Keys -/

/-- UTF-8 encoding is injective on the numbers up to U+10FFFF. -/
theorem encodeRune_inj (a b : Nat) (ha : a < 0x110000) (hb : b < 0x110000)
    (h : encodeRune a = encodeRune b) : a = b := by
  unfold encodeRune at h
  split_ifs at h <;> simp at h <;> omega

/-- On the years 0..9999 the conversion `string(year)` is injective. -/
theorem stringOfInt_inj (x y : Int) (hx : 0 ≤ x ∧ x ≤ 9999) (hy : 0 ≤ y ∧ y ≤ 9999)
    (h : stringOfInt x = stringOfInt y) : x = y := by
  unfold stringOfInt at h
  rw [if_pos (by omega), if_pos (by omega)] at h
  have := encodeRune_inj _ _ (by omega) (by omega) h
  omega

/-- No month name contains the byte of "-". -/
theorem dash_not_mem_name (m : Month) : 45 ∉ m.name := by
  cases m <;> decide

/-- Two strings without "-" that are followed by "-" and a rest agree when the
wholes agree, and so do the rests. -/
theorem append_dash_inj (a b x y : GoString) (ha : 45 ∉ a) (hb : 45 ∉ b)
    (h : a ++ 45 :: x = b ++ 45 :: y) : a = b ∧ x = y := by
  induction a generalizing b with
  | nil =>
    cases b with
    | nil => simpa using h
    | cons c b =>
      simp at h hb
      omega
  | cons c a ih =>
    cases b with
    | nil =>
      simp at h ha
      omega
    | cons d b =>
      simp at h ha hb
      obtain ⟨h1, h2⟩ := ih b ha.2 hb.2 h.2
      simp [h.1, h1, h2]

/-- Keys of years in 0..9999 are equal exactly when the month names and the
years are. -/
theorem summaryKey_eq_iff (m1 m2 : Month) (y1 y2 : Int)
    (h1 : 0 ≤ y1 ∧ y1 ≤ 9999) (h2 : 0 ≤ y2 ∧ y2 ≤ 9999) :
    summaryKey m1.name y1 = summaryKey m2.name y2 ↔ m1.name = m2.name ∧ y1 = y2 := by
  constructor
  · intro h
    have hd : ascii "-" = [45] := by decide
    unfold summaryKey at h
    rw [hd] at h
    simp only [List.append_assoc, List.singleton_append] at h
    obtain ⟨ha, hb⟩ := append_dash_inj _ _ _ _ (dash_not_mem_name m1) (dash_not_mem_name m2) h
    exact ⟨ha, stringOfInt_inj _ _ h1 h2 hb⟩
  · rintro ⟨ha, hb⟩
    rw [ha, hb]

/-- The years 0..9999 number code points. -/
theorem validCodePoint_of_inRange (x : Int) (h : 0 ≤ x ∧ x ≤ 9999) : validCodePoint x := by
  unfold validCodePoint
  omega

/-- On the code points the conversion `string(x)` is injective. -/
theorem stringOfInt_inj_of_valid (x y : Int) (hx : validCodePoint x) (hy : validCodePoint y)
    (h : stringOfInt x = stringOfInt y) : x = y := by
  unfold validCodePoint at hx hy
  unfold stringOfInt at h
  rw [if_pos hx, if_pos hy] at h
  have := encodeRune_inj _ _ (by omega) (by omega) h
  omega

/-- Transactions whose years number code points have equal keys exactly when
their month names and years are equal. -/
theorem key_eq_iff_of_valid (t u : Transaction) (ht : validCodePoint t.date.year)
    (hu : validCodePoint u.date.year) :
    t.key = u.key ↔ t.date.formatJanuary = u.date.formatJanuary ∧ t.date.year = u.date.year := by
  constructor
  · intro h
    have hd : ascii "-" = [45] := by decide
    unfold Transaction.key summaryKey at h
    rw [hd] at h
    simp only [List.append_assoc, List.singleton_append] at h
    obtain ⟨ha, hb⟩ := append_dash_inj _ _ _ _ (dash_not_mem_name t.date.month)
      (dash_not_mem_name u.date.month) h
    exact ⟨ha, stringOfInt_inj_of_valid _ _ ht hu hb⟩
  · rintro ⟨ha, hb⟩
    unfold Transaction.key
    rw [ha, hb]

/-! ## Deleting and adding: auxiliary facts -/

/-- The loop of `deleteTransaction` finds nothing exactly when no transaction
has the id. -/
theorem deleteIndex_eq_none (id : GoString) (l : List Transaction) :
    deleteIndex id l = none ↔ ∀ t ∈ l, t.id ≠ id := by
  induction l with
  | nil => simp [deleteIndex]
  | cons a l ih =>
    by_cases h : a.id = id
    · simp [deleteIndex, h]
    · simp [deleteIndex, h, ih]

/-- An index found by the loop of `deleteTransaction` is that of the first
transaction having the id. -/
theorem deleteIndex_eq_some (id : GoString) (l : List Transaction) (i : Nat)
    (h : deleteIndex id l = some i) :
    ∃ pre t post, l = pre ++ t :: post ∧ t.id = id ∧ (∀ x ∈ pre, x.id ≠ id) ∧
      pre.length = i := by
  induction l generalizing i with
  | nil => simp [deleteIndex] at h
  | cons a l ih =>
    by_cases ha : a.id = id
    · simp [deleteIndex, ha] at h
      exact ⟨[], a, l, by simp, ha, by simp, by simp [h]⟩
    · simp [deleteIndex, ha] at h
      obtain ⟨j, hj, rfl⟩ := h
      obtain ⟨pre, t, post, hl, ht, hpre, hlen⟩ := ih j hj
      refine ⟨a :: pre, t, post, by simp [hl], ht, ?_, by simp [hlen]⟩
      intro x hx
      rcases List.mem_cons.1 hx with rfl | hx
      · exact ha
      · exact hpre x hx

/-- Cutting the entry at index `pre.length` out of `pre ++ t :: post` leaves
`pre ++ post`. -/
theorem take_drop_split (pre post : List Transaction) (t : Transaction) :
    (pre ++ t :: post).take pre.length ++ (pre ++ t :: post).drop (pre.length + 1) =
      pre ++ post := by
  simp [List.take_append_eq_append_take, List.drop_append_eq_append_drop]

/-- The result of `appendInt` has at least `width` bytes. -/
theorem appendInt_length (x : Int) (w : Nat) : w ≤ (appendInt x w).length := by
  unfold appendInt
  simp only [List.length_append, List.length_replicate]
  omega

/-- A timestamp in the layout "20060102150405" has at least 14 bytes. -/
theorem format_length (t : Time) : 14 ≤ t.format20060102150405.length := by
  unfold Time.format20060102150405
  have h1 := appendInt_length t.year 4
  have h2 := appendInt_length t.month.number 2
  have h3 := appendInt_length t.day 2
  have h4 := appendInt_length t.hour 2
  have h5 := appendInt_length t.minute 2
  have h6 := appendInt_length t.second 2
  simp only [List.length_append]
  omega

/-- When exactly one transaction has the id and it is the one after `pre`, no
other entry has it. -/
theorem countP_id_split (pre post : List Transaction) (t : Transaction) (id : GoString)
    (ht : t.id = id) (hpre : ∀ x ∈ pre, x.id ≠ id)
    (h : (pre ++ t :: post).countP (fun x => x.id = id) = 1) :
    ∀ x ∈ pre ++ post, x.id ≠ id := by
  have hp : pre.countP (fun x => x.id = id) = 0 := by
    rw [List.countP_eq_zero]
    intro x hx
    simpa using hpre x hx
  rw [List.countP_append, List.countP_cons, hp] at h
  simp only [ht, decide_True, if_true] at h
  have hq : post.countP (fun x => x.id = id) = 0 := by omega
  rw [List.countP_eq_zero] at hq
  intro x hx
  rcases List.mem_append.1 hx with hx | hx
  · exact hpre x hx
  · simpa using hq x hx

/-- The character of a decimal digit is the byte 48 plus the digit. -/
theorem digitChar_toNat (k : Nat) (h : k < 10) : (Nat.digitChar k).toNat = 48 + k := by
  revert k
  decide

/-- One round of the digit loop of `Nat.toDigits`. -/
theorem toDigitsCore_succ (fuel n : Nat) (ds : List Char) :
    Nat.toDigitsCore 10 (fuel + 1) n ds =
      if n / 10 = 0 then Nat.digitChar (n % 10) :: ds
      else Nat.toDigitsCore 10 fuel (n / 10) (Nat.digitChar (n % 10) :: ds) := rfl

/-- The decimal digits of a number below 10000, as bytes. -/
theorem decimal_digits (n : Nat) (h : n < 10000) :
    (Nat.toDigits 10 n).map Char.toNat =
      if n < 10 then [48 + n]
      else if n < 100 then [48 + n / 10, 48 + n % 10]
      else if n < 1000 then [48 + n / 100, 48 + n / 10 % 10, 48 + n % 10]
      else [48 + n / 1000, 48 + n / 100 % 10, 48 + n / 10 % 10, 48 + n % 10] := by
  unfold Nat.toDigits
  by_cases h1 : n < 10
  · rw [toDigitsCore_succ, if_pos (by omega), if_pos h1]
    simp [digitChar_toNat _ (Nat.mod_lt n (by decide))]
    omega
  · rw [if_neg h1]
    obtain ⟨f, hf⟩ : ∃ f, n + 1 = f + 4 := ⟨n - 3, by omega⟩
    rw [hf]
    by_cases h2 : n < 100
    · rw [toDigitsCore_succ, if_neg (by omega), toDigitsCore_succ, if_pos (by omega), if_pos h2]
      simp [digitChar_toNat _ (Nat.mod_lt _ (by decide : 0 < 10))]
      omega
    · rw [if_neg h2]
      by_cases h3 : n < 1000
      · rw [toDigitsCore_succ, if_neg (by omega), toDigitsCore_succ, if_neg (by omega),
          toDigitsCore_succ, if_pos (by omega), if_pos h3]
        simp [digitChar_toNat _ (Nat.mod_lt _ (by decide : 0 < 10))]
        omega
      · rw [if_neg h3, toDigitsCore_succ, if_neg (by omega), toDigitsCore_succ,
          if_neg (by omega), toDigitsCore_succ, if_neg (by omega), toDigitsCore_succ,
          if_pos (by omega)]
        simp [digitChar_toNat _ (Nat.mod_lt _ (by decide : 0 < 10))]
        omega

/-- A number below 100 on width 2 is its two decimal digits. -/
theorem appendInt_two (n : Nat) (h : n < 100) :
    appendInt (n : Int) 2 = [48 + n / 10, 48 + n % 10] := by
  unfold appendInt
  have hd := decimal_digits n (by omega)
  simp only [Int.natAbs_ofNat] at *
  rw [hd]
  have hneg : ¬ ((n : Int) < 0) := by omega
  by_cases h1 : n < 10
  · simp [h1, hneg, List.replicate]
    omega
  · simp [h1, h, hneg]

/-- A number below 10000 on width 4 is its four decimal digits. -/
theorem appendInt_four (n : Nat) (h : n < 10000) :
    appendInt (n : Int) 4 =
      [48 + n / 1000, 48 + n / 100 % 10, 48 + n / 10 % 10, 48 + n % 10] := by
  unfold appendInt
  have hd := decimal_digits n h
  simp only [Int.natAbs_ofNat] at *
  rw [hd]
  have hneg : ¬ ((n : Int) < 0) := by omega
  by_cases h1 : n < 10
  · simp [h1, hneg, List.replicate]
    omega
  · by_cases h2 : n < 100
    · simp [h1, h2, hneg, List.replicate]
      omega
    · by_cases h3 : n < 1000
      · simp [h1, h2, h3, hneg, List.replicate]
        omega
      · simp [h1, h2, h3, hneg]


/-- The number of a month has at most two digits. -/
theorem month_number_lt (m : Month) : m.number < 100 := by
  cases m <;> decide

/-- For a year in 0..9999 and a day, hour, minute and second below 100, the
layout "20060102150405" gives fourteen decimal digits: four of the year, then
two each of the month, day, hour, minute and second. -/
theorem format_digits (t : Time) (hy : 0 ≤ t.year ∧ t.year ≤ 9999) (hd : t.day < 100)
    (hh : t.hour < 100) (hm : t.minute < 100) (hs : t.second < 100) :
    t.format20060102150405 =
      [48 + t.year.toNat / 1000, 48 + t.year.toNat / 100 % 10, 48 + t.year.toNat / 10 % 10,
       48 + t.year.toNat % 10,
       48 + t.month.number / 10, 48 + t.month.number % 10,
       48 + t.day / 10, 48 + t.day % 10,
       48 + t.hour / 10, 48 + t.hour % 10,
       48 + t.minute / 10, 48 + t.minute % 10,
       48 + t.second / 10, 48 + t.second % 10] := by
  unfold Time.format20060102150405
  obtain ⟨n, hn⟩ := Int.eq_ofNat_of_zero_le hy.1
  rw [hn] at hy ⊢
  rw [appendInt_four n (by omega), appendInt_two _ (month_number_lt _),
    appendInt_two _ hd, appendInt_two _ hh, appendInt_two _ hm, appendInt_two _ hs]
  simp

/-! ## The summary map -/

/-- Lookup after a write: the written record under the written key, the old
lookup under any other. -/
theorem SummaryMap.get_set (m : SummaryMap) (k k' : GoString) (v : MonthlySummary) :
    (m.set k v).get k' = if k = k' then some v else m.get k' := by
  induction m with
  | nil => simp [SummaryMap.set, SummaryMap.get]
  | cons e m ih =>
    obtain ⟨a, w⟩ := e
    by_cases h : a = k
    · subst h
      by_cases h2 : a = k' <;> simp [SummaryMap.set, SummaryMap.get, h2]
    · by_cases h2 : a = k'
      · subst h2
        simp [SummaryMap.set, SummaryMap.get, h, Ne.symm h]
      · simp [SummaryMap.set, SummaryMap.get, h, h2, ih]

/-- A write keeps the keys when the key is present and appends the key when it
is new. -/
theorem SummaryMap.keys_set (m : SummaryMap) (k : GoString) (v : MonthlySummary) :
    (m.set k v).map Prod.fst =
      if k ∈ m.map Prod.fst then m.map Prod.fst else m.map Prod.fst ++ [k] := by
  induction m with
  | nil => simp [SummaryMap.set]
  | cons e m ih =>
    obtain ⟨a, w⟩ := e
    by_cases h : a = k
    · subst h
      simp [SummaryMap.set]
    · have h' : ¬ k = a := fun x => h x.symm
      by_cases hm : k ∈ m.map Prod.fst
      · simp only [SummaryMap.set, h, if_false, List.map_cons, ih, hm, if_true, List.mem_cons,
          or_true]
      · simp only [SummaryMap.set, h, if_false, List.map_cons, ih, hm, List.mem_cons, h',
          or_self, List.cons_append]

/-- Lookup fails exactly on the keys that are absent. -/
theorem SummaryMap.get_eq_none (m : SummaryMap) (k : GoString) :
    m.get k = none ↔ k ∉ m.map Prod.fst := by
  induction m with
  | nil => simp [SummaryMap.get]
  | cons e m ih =>
    obtain ⟨a, w⟩ := e
    by_cases h : a = k
    · simp [SummaryMap.get, h]
    · have h' : ¬ k = a := fun x => h x.symm
      simp [SummaryMap.get, h, h', ih]

/-- With no repeated key, the entries of a map are what lookup returns. -/
theorem SummaryMap.mem_iff_get (m : SummaryMap) (hn : (m.map Prod.fst).Nodup) (k : GoString)
    (v : MonthlySummary) : (k, v) ∈ m ↔ m.get k = some v := by
  induction m with
  | nil => simp [SummaryMap.get]
  | cons e m ih =>
    obtain ⟨a, w⟩ := e
    simp only [List.map_cons, List.nodup_cons] at hn
    by_cases h : a = k
    · subst h
      have : ∀ v, (a, v) ∉ m := fun v hv => hn.1 (List.mem_map.2 ⟨(a, v), hv, rfl⟩)
      simp [SummaryMap.get, this, eq_comm]
    · have h' : ¬ k = a := fun x => h x.symm
      simp [SummaryMap.get, h, h', ih hn.2]

/-- The map of a collection with one more transaction at the end is one more
iteration of the loop. -/
theorem buildSummaryMap_snoc (l : List Transaction) (t : Transaction) :
    buildSummaryMap (l ++ [t]) = summaryStep (buildSummaryMap l) t := by
  simp [buildSummaryMap, List.foldl_append]

/-- The map built by `getMonthlySummary` has no repeated key. -/
theorem keys_nodup (l : List Transaction) : ((buildSummaryMap l).map Prod.fst).Nodup := by
  induction l using List.reverseRecOn with
  | nil => simp [buildSummaryMap]
  | append_singleton l t ih =>
    rw [buildSummaryMap_snoc]
    unfold summaryStep
    simp only [SummaryMap.keys_set]
    split_ifs with h
    · exact ih
    · exact List.Nodup.append ih (by simp) (by simpa using h)

/-- The total of a kind over a group with one more transaction at the end. -/
theorem totalOf_snoc (kind : GoString) (g : List Transaction) (t : Transaction) :
    totalOf kind (g ++ [t]) =
      if t.type = kind then F64.add (totalOf kind g) t.amount else totalOf kind g := by
  unfold totalOf F64.sum
  by_cases h : t.type = kind <;> simp [List.filter_append, h, List.foldl_append]

/-- The strings "income" and "expense" differ. -/
theorem income_ne_expense : ascii "income" ≠ ascii "expense" := by decide


/-- The group of a key in a collection with one more transaction at the
end. -/
theorem groupOf_snoc (l : List Transaction) (t : Transaction) (k : GoString) :
    groupOf (l ++ [t]) k = if t.key = k then groupOf l k ++ [t] else groupOf l k := by
  unfold groupOf
  by_cases h : t.key = k <;> simp [List.filter_append, h]

/-- The total over no transaction is the zero value. -/
theorem totalOf_nil (kind : GoString) : totalOf kind [] = F64.zero := rfl

/-- One iteration of the loop writes `stepRecord` of the record found under
the key of the transaction. -/
theorem summaryStep_eq (m : SummaryMap) (t : Transaction) :
    summaryStep m t = m.set t.key (stepRecord (m.get t.key) t) := rfl

/-- The record of a group with one more transaction at the end is `stepRecord`
of the record of the group. -/
theorem groupSummary_snoc (g : List Transaction) (t : Transaction) :
    groupSummary (g ++ [t]) = some (stepRecord (groupSummary g) t) := by
  unfold stepRecord
  cases g with
  | nil =>
    have h1 := totalOf_snoc (ascii "income") [] t
    have h2 := totalOf_snoc (ascii "expense") [] t
    simp only [List.nil_append, totalOf_nil] at h1 h2
    simp only [List.nil_append, groupSummary, h1, h2]
    by_cases hi : t.type = ascii "income"
    · have he : ¬ t.type = ascii "expense" := fun h => income_ne_expense (hi.symm.trans h)
      simp [hi, he]
      simp [← hi, he]
    · by_cases he : t.type = ascii "expense"
      · simp [hi, he]
        simp [← he, hi]
      · simp [hi, he]
  | cons t0 g =>
    have h1 := totalOf_snoc (ascii "income") (t0 :: g) t
    have h2 := totalOf_snoc (ascii "expense") (t0 :: g) t
    simp only [List.cons_append] at h1 h2
    simp only [List.cons_append, groupSummary, h1, h2]
    by_cases hi : t.type = ascii "income"
    · have he : ¬ t.type = ascii "expense" := fun h => income_ne_expense (hi.symm.trans h)
      simp [hi, he]
      simp [← hi, he]
    · by_cases he : t.type = ascii "expense"
      · simp [hi, he]
        simp [← he, hi]
      · simp [hi, he]

/-- The map built by `getMonthlySummary` holds under every key the record of
the group of that key. -/
theorem get_buildSummaryMap (l : List Transaction) (k : GoString) :
    (buildSummaryMap l).get k = groupSummary (groupOf l k) := by
  induction l using List.reverseRecOn with
  | nil => rfl
  | append_singleton l t ih =>
    rw [buildSummaryMap_snoc, groupOf_snoc, summaryStep_eq, SummaryMap.get_set]
    by_cases h : t.key = k
    · subst h
      simp only [if_true]
      rw [groupSummary_snoc, ih]
    · simp only [h, if_false]
      exact ih

/-! ## The summaries -/

/-- The summaries are the records of the non-empty groups. -/
theorem mem_summariesOf (l : List Transaction) (s : MonthlySummary) :
    s ∈ summariesOf l ↔ ∃ k, groupSummary (groupOf l k) = some s := by
  unfold summariesOf
  simp only [List.mem_map, Prod.exists, exists_eq_right]
  constructor
  · rintro ⟨k, hk⟩
    refine ⟨k, ?_⟩
    rw [← get_buildSummaryMap, ← SummaryMap.mem_iff_get _ (keys_nodup l)]
    exact hk
  · rintro ⟨k, hk⟩
    exact ⟨k, by rw [SummaryMap.mem_iff_get _ (keys_nodup l), get_buildSummaryMap]; exact hk⟩

/-- A response of status 200 carrying `summaries` is one `getMonthlySummary`
may write exactly when `summaries` is a reordering of the records of the
map. -/
theorem getMonthlySummary_iff (l : List Transaction) (summaries : List MonthlySummary) :
    getMonthlySummary l ⟨200, .summaries summaries⟩ ↔ summaries.Perm (summariesOf l) := by
  simp [getMonthlySummary]

/-- The handler `getMonthlySummary` always has a response: the records in the
order of the map's entries. -/
theorem getMonthlySummary_entryOrder (l : List Transaction) :
    getMonthlySummary l ⟨200, .summaries (summariesOf l)⟩ :=
  (getMonthlySummary_iff l (summariesOf l)).2 (List.Perm.refl _)

/-- The record of a group carries the month and year of the first transaction
of the group and the totals of the group. -/
theorem groupSummary_eq_some (g : List Transaction) (s : MonthlySummary)
    (h : groupSummary g = some s) :
    ∃ t rest, g = t :: rest ∧ s.month = t.date.formatJanuary ∧ s.year = t.date.year ∧
      s.totalIncome = totalOf (ascii "income") g ∧
      s.totalExpenses = totalOf (ascii "expense") g ∧
      s.netAmount = F64.sub s.totalIncome s.totalExpenses := by
  cases g with
  | nil => simp [groupSummary] at h
  | cons t rest =>
    simp only [groupSummary, Option.some.injEq] at h
    subst h
    exact ⟨t, rest, rfl, rfl, rfl, rfl, rfl, rfl⟩

/-- The first transaction of the group of a key is in the collection and has
that key. -/
theorem groupOf_head_key (l : List Transaction) (k : GoString) (t : Transaction)
    (rest : List Transaction) (h : groupOf l k = t :: rest) : t ∈ l ∧ t.key = k := by
  have : t ∈ groupOf l k := by rw [h]; exact List.mem_cons_self _ _
  unfold groupOf at this
  simpa using this

/-- The key of a group is the key formed from the month and year of its
record. -/
theorem key_of_groupSummary (l : List Transaction) (k : GoString) (s : MonthlySummary)
    (h : groupSummary (groupOf l k) = some s) : k = summaryKey s.month s.year := by
  obtain ⟨t, rest, hg, hm, hy, -⟩ := groupSummary_eq_some _ _ h
  rw [hm, hy]
  exact (groupOf_head_key l k t rest hg).2.symm

/-- Every entry of the map stands under the key formed from the month and year
of its record. -/
theorem entry_key (l : List Transaction) (e : GoString × MonthlySummary)
    (h : e ∈ buildSummaryMap l) : e.1 = summaryKey e.2.month e.2.year := by
  obtain ⟨k, s⟩ := e
  apply key_of_groupSummary l
  rw [← get_buildSummaryMap, ← SummaryMap.mem_iff_get _ (keys_nodup l)]
  exact h

/-- No two summaries carry the same (month name, year) pair. -/
theorem monthYear_nodup (l : List Transaction) :
    ((summariesOf l).map MonthlySummary.monthYear).Nodup := by
  have h := keys_nodup l
  have hk : (buildSummaryMap l).map Prod.fst =
      ((summariesOf l).map MonthlySummary.monthYear).map (fun p => summaryKey p.1 p.2) := by
    unfold summariesOf
    rw [List.map_map, List.map_map]
    apply List.map_congr_left
    intro e he
    exact entry_key l e he
  rw [hk] at h
  exact List.Nodup.of_map _ h

/-- No summary record occurs twice. -/
theorem summariesOf_nodup (l : List Transaction) : (summariesOf l).Nodup :=
  List.Nodup.of_map _ (monthYear_nodup l)


/-- Transactions of years in 0..9999 have equal keys exactly when their month
names and years are equal. -/
theorem key_eq_iff_of_inRange (t u : Transaction)
    (ht : 0 ≤ t.date.year ∧ t.date.year ≤ 9999)
    (hu : 0 ≤ u.date.year ∧ u.date.year ≤ 9999) :
    t.key = u.key ↔ t.date.formatJanuary = u.date.formatJanuary ∧ t.date.year = u.date.year :=
  summaryKey_eq_iff t.date.month u.date.month t.date.year u.date.year ht hu

/-- Every transaction has a summary record under its key. -/
theorem mem_summariesOf_of_mem (l : List Transaction) (t : Transaction) (ht : t ∈ l) :
    ∃ s ∈ summariesOf l, summaryKey s.month s.year = t.key := by
  have hne : groupOf l t.key ≠ [] := by
    intro h
    have : t ∈ groupOf l t.key := by
      unfold groupOf
      simp [ht]
    rw [h] at this
    simp at this
  cases hg : groupSummary (groupOf l t.key) with
  | none =>
    cases hgg : groupOf l t.key with
    | nil => exact absurd hgg hne
    | cons a b => rw [hgg] at hg; simp [groupSummary] at hg
  | some s =>
    exact ⟨s, (mem_summariesOf l s).2 ⟨_, hg⟩, (key_of_groupSummary l _ s hg).symm⟩

/-- Every summary record carries the month and year of a transaction of the
collection and is the record of the group of that transaction. -/
theorem source_of_summary (l : List Transaction) (s : MonthlySummary) (hs : s ∈ summariesOf l) :
    ∃ t ∈ l, t.date.formatJanuary = s.month ∧ t.date.year = s.year ∧
      groupSummary (groupOf l t.key) = some s := by
  obtain ⟨k, hk⟩ := (mem_summariesOf l s).1 hs
  obtain ⟨t, rest, hg, hm, hy, -⟩ := groupSummary_eq_some _ _ hk
  obtain ⟨htl, htk⟩ := groupOf_head_key l k t rest hg
  exact ⟨t, htl, hm.symm, hy.symm, by rw [htk]; exact hk⟩

/-- With years in 0..9999, every transaction has a summary record carrying its
month and year. -/
theorem summary_of_mem_inRange (l : List Transaction)
    (hr : ∀ t ∈ l, 0 ≤ t.date.year ∧ t.date.year ≤ 9999) (t : Transaction)
    (ht : t ∈ l) :
    ∃ s ∈ summariesOf l, s.month = t.date.formatJanuary ∧ s.year = t.date.year := by
  obtain ⟨s, hs, hk⟩ := mem_summariesOf_of_mem l t ht
  obtain ⟨u, hu, hum, huy, -⟩ := source_of_summary l s hs
  rw [← hum, ← huy] at hk
  have := (key_eq_iff_of_inRange u t (hr u hu) (hr t ht)).1 hk
  exact ⟨s, hs, by rw [← hum]; exact this.1, by rw [← huy]; exact this.2⟩

/-- With years in 0..9999, the (month name, year) pairs of the summaries are
the distinct pairs of the transactions. -/
theorem monthYear_perm_dedup (l : List Transaction)
    (hr : ∀ t ∈ l, 0 ≤ t.date.year ∧ t.date.year ≤ 9999) :
    ((summariesOf l).map MonthlySummary.monthYear).Perm
      ((l.map Transaction.monthYear).dedup) := by
  rw [List.perm_ext_iff_of_nodup (monthYear_nodup l) (List.nodup_dedup _)]
  intro p
  simp only [List.mem_map, List.mem_dedup]
  constructor
  · rintro ⟨s, hs, rfl⟩
    obtain ⟨t, ht, hm, hy, -⟩ := source_of_summary l s hs
    exact ⟨t, ht, by simp [Transaction.monthYear, MonthlySummary.monthYear, hm, hy]⟩
  · rintro ⟨t, ht, rfl⟩
    obtain ⟨s, hs, hm, hy⟩ := summary_of_mem_inRange l hr t ht
    exact ⟨s, hs, by simp [Transaction.monthYear, MonthlySummary.monthYear, hm, hy]⟩

/-- Two collections with the same entries whose groups agree on the keys of
the first agree on the group of every key. -/
theorem groupOf_congr_of_perm (l1 l2 : List Transaction) (hp : l1.Perm l2)
    (hg : ∀ t ∈ l1, groupOf l1 t.key = groupOf l2 t.key) (k : GoString) :
    groupOf l1 k = groupOf l2 k := by
  by_cases hk : ∃ t ∈ l1, t.key = k
  · obtain ⟨t, ht, rfl⟩ := hk
    exact hg t ht
  · have e1 : groupOf l1 k = [] := by
      unfold groupOf
      rw [List.filter_eq_nil_iff]
      intro t ht
      simpa using fun hh => hk ⟨t, ht, hh⟩
    have e2 : groupOf l2 k = [] := by
      unfold groupOf
      rw [List.filter_eq_nil_iff]
      intro t ht
      simpa using fun hh => hk ⟨t, (List.Perm.mem_iff hp).2 ht, hh⟩
    rw [e1, e2]

/-- When the years number code points, every transaction has a summary record
carrying its month and year. -/
theorem summary_of_mem_valid (l : List Transaction)
    (hr : ∀ t ∈ l, validCodePoint t.date.year) (t : Transaction) (ht : t ∈ l) :
    ∃ s ∈ summariesOf l, s.month = t.date.formatJanuary ∧ s.year = t.date.year := by
  obtain ⟨s, hs, hk⟩ := mem_summariesOf_of_mem l t ht
  obtain ⟨u, hu, hum, huy, -⟩ := source_of_summary l s hs
  rw [← hum, ← huy] at hk
  have := (key_eq_iff_of_valid u t (hr u hu) (hr t ht)).1 hk
  exact ⟨s, hs, by rw [← hum]; exact this.1, by rw [← huy]; exact this.2⟩

/-- When the years number code points, the (month name, year) pairs of the
summaries are the distinct pairs of the transactions. -/
theorem monthYear_perm_dedup_valid (l : List Transaction)
    (hr : ∀ t ∈ l, validCodePoint t.date.year) :
    ((summariesOf l).map MonthlySummary.monthYear).Perm
      ((l.map Transaction.monthYear).dedup) := by
  rw [List.perm_ext_iff_of_nodup (monthYear_nodup l) (List.nodup_dedup _)]
  intro p
  simp only [List.mem_map, List.mem_dedup]
  constructor
  · rintro ⟨s, hs, rfl⟩
    obtain ⟨t, ht, hm, hy, -⟩ := source_of_summary l s hs
    exact ⟨t, ht, by simp [Transaction.monthYear, MonthlySummary.monthYear, hm, hy]⟩
  · rintro ⟨t, ht, rfl⟩
    obtain ⟨s, hs, hm, hy⟩ := summary_of_mem_valid l hr t ht
    exact ⟨s, hs, by simp [Transaction.monthYear, MonthlySummary.monthYear, hm, hy]⟩

/-! ## Float constants -/

/-- The named float64 constants are the float64 values of the decimals they
are named after. -/
theorem float_constants :
    amount4599.IsNearest 4599 100 ∧ float01.IsNearest 1 10 ∧ float02.IsNearest 2 10 ∧
    float03.IsNearest 3 10 ∧ float06.IsNearest 6 10 ∧
    float06up.IsNearest 6000000000000001 10000000000000000 ∧
    float7099.IsNearest 7099 100 ∧
    float7099up.IsNearest 7099000000000001 100000000000000 ∧
    float142901.IsNearest 142901 100 := by
  decide

/-- The float64 additions and subtractions met when summarising the seed
data. -/
theorem seed_float_sums :
    F64.add F64.zero (F64.ofNat 1500) = F64.ofNat 1500 ∧
    F64.sub (F64.ofNat 1500) F64.zero = F64.ofNat 1500 ∧
    F64.add F64.zero amount4599 = amount4599 ∧
    F64.sub (F64.ofNat 1500) amount4599 = F64.finite false 0x16B80A3D70A3D7 1032 ∧
    F64.add amount4599 (F64.ofNat 25) = float7099up ∧
    F64.sub (F64.ofNat 1500) float7099up = float142901 := by
  set_option exponentiation.threshold 4096 in
  set_option maxRecDepth 100000 in
  decide

/-- The timestamp of `stamp` in the layout "20060102150405". -/
theorem stamp_format : stamp.format20060102150405 = stampId := by decide

/-! ## C1 -/

/-- The store keeps its years among the code points: when the years of the
collection, of the seed dates, and of the date of a parsed payload number
code points, so do the years of the collections that `addTestData`,
`addTransaction` and `deleteTransaction` leave. -/
theorem years_valid_kept (l : List Transaction) (hl : ∀ t ∈ l, validCodePoint t.date.year) :
    (∀ d5 d3 d1 : Time, validCodePoint d5.year → validCodePoint d3.year →
      validCodePoint d1.year → ∀ t ∈ addTestData l d5 d3 d1, validCodePoint t.date.year) ∧
    (∀ (bound : Except GoString Transaction) (now : Time),
      (∀ p, bound = .ok p → validCodePoint p.date.year) →
      ∀ t ∈ (addTransaction l bound now).1, validCodePoint t.date.year) ∧
    (∀ id : GoString, ∀ t ∈ (deleteTransaction l id).1, validCodePoint t.date.year) := by
  refine ⟨?_, ?_, ?_⟩
  · intro d5 d3 d1 h5 h3 h1 t ht
    simp only [addTestData, List.mem_append, List.mem_singleton] at ht
    rcases ht with ((ht | rfl) | rfl) | rfl
    · exact hl t ht
    · exact h5
    · exact h3
    · exact h1
  · intro bound now hb t ht
    cases bound with
    | error err => exact hl t ht
    | ok p =>
      simp only [addTransaction, List.mem_append, List.mem_singleton] at ht
      rcases ht with ht | rfl
      · exact hl t ht
      · exact hb p rfl
  · intro id t ht
    unfold deleteTransaction at ht
    cases hd : deleteIndex id l with
    | none =>
      rw [hd] at ht
      exact hl t ht
    | some i =>
      rw [hd] at ht
      simp only [List.mem_append] at ht
      rcases ht with ht | ht
      · exact hl t (List.mem_of_mem_take ht)
      · exact hl t (List.mem_of_mem_drop ht)

/-- Years that number no code point, which no clock or JSON date carries,
merge: for two incomes in January of the years 55296 and 55297 the conversion
`string(year)` is U+FFFD both times and the summary has a single record. -/
theorem monthlySummary_surrogateYears :
    getMonthlySummary surrogateYears
      ⟨200, .summaries
        [{ month := ascii "January", year := 55296, totalIncome := F64.ofNat 3,
           totalExpenses := F64.zero, netAmount := F64.ofNat 3 }]⟩ ∧
    ((surrogateYears.map Transaction.monthYear).dedup).length = 2 := by
  set_option exponentiation.threshold 4096 in
  set_option maxRecDepth 100000 in
  decide

/-- C1. For every collection of transactions whose years number Unicode code
points, as the years 0..9999 of JSON dates and of clock dates do, and every
list of summaries `getMonthlySummary` may write for it: every (month name,
year) pair of a transaction has a record carrying it, every record carries
the pair of some transaction, no two records carry the same pair, and the
number of records is the number of distinct pairs. -/
theorem monthlySummary_one_per_pair (l : List Transaction) (summaries : List MonthlySummary)
    (h : getMonthlySummary l ⟨200, .summaries summaries⟩)
    (hr : ∀ t ∈ l, validCodePoint t.date.year) :
    (∀ t ∈ l, ∃ s ∈ summaries, s.month = t.date.formatJanuary ∧ s.year = t.date.year) ∧
    (∀ s ∈ summaries, ∃ t ∈ l, t.date.formatJanuary = s.month ∧ t.date.year = s.year) ∧
    (summaries.map MonthlySummary.monthYear).Nodup ∧
    summaries.length = ((l.map Transaction.monthYear).dedup).length := by
  replace h := (getMonthlySummary_iff l summaries).1 h
  refine ⟨?_, ?_, ?_, ?_⟩
  · intro t ht
    obtain ⟨s, hs, hm⟩ := summary_of_mem_valid l hr t ht
    exact ⟨s, (List.Perm.mem_iff h).2 hs, hm⟩
  · intro s hs
    obtain ⟨t, ht, hm, hy, -⟩ := source_of_summary l s ((List.Perm.mem_iff h).1 hs)
    exact ⟨t, ht, hm, hy⟩
  · exact (List.Perm.nodup_iff (List.Perm.map _ h)).2 (monthYear_nodup l)
  · rw [List.Perm.length_eq h, ← List.Perm.length_eq (monthYear_perm_dedup_valid l hr),
      List.length_map]

/-- C1, witness: the seed data lying across October and November 2026, with
the summaries listed in the reverse of the map's entry order. -/
theorem monthlySummary_one_per_pair_witness :
    (∀ t ∈ seedTwoMonths, validCodePoint t.date.year) ∧
    (∀ t ∈ seedTwoMonths, ∃ s ∈ (summariesOf seedTwoMonths).reverse,
      s.month = t.date.formatJanuary ∧ s.year = t.date.year) ∧
    (∀ s ∈ (summariesOf seedTwoMonths).reverse, ∃ t ∈ seedTwoMonths,
      t.date.formatJanuary = s.month ∧ t.date.year = s.year) ∧
    ((summariesOf seedTwoMonths).reverse.map MonthlySummary.monthYear).Nodup ∧
    (summariesOf seedTwoMonths).reverse.length =
      ((seedTwoMonths.map Transaction.monthYear).dedup).length :=
  ⟨by decide,
    monthlySummary_one_per_pair seedTwoMonths (summariesOf seedTwoMonths).reverse
      ((getMonthlySummary_iff _ _).2 (List.reverse_perm _)) (by decide)⟩

/-! ## C2 -/

/-- C2. For every collection, every list of summaries `getMonthlySummary`
may write for it and every record `s` of that list, with the group of `s`
the transactions whose grouping key is that of `s`: the group is not empty;
`totalIncome` is the float64 sum, in collection order from zero, of the
amounts of the group's transactions whose type is exactly "income";
`totalExpenses` is that sum over those whose type is exactly "expense" (so
a transaction of another type adds to neither); and `netAmount` is
`totalIncome - totalExpenses`. When all years lie in 0..9999 the group of
`s` is the transactions with the month name and year of `s`. -/
theorem monthlySummary_totals (l : List Transaction) (summaries : List MonthlySummary)
    (h : getMonthlySummary l ⟨200, .summaries summaries⟩) (s : MonthlySummary)
    (hs : s ∈ summaries) :
    groupOf l (summaryKey s.month s.year) ≠ [] ∧
    s.totalIncome = totalOf (ascii "income") (groupOf l (summaryKey s.month s.year)) ∧
    s.totalExpenses = totalOf (ascii "expense") (groupOf l (summaryKey s.month s.year)) ∧
    s.netAmount = F64.sub s.totalIncome s.totalExpenses ∧
    ((∀ t ∈ l, 0 ≤ t.date.year ∧ t.date.year ≤ 9999) →
      groupOf l (summaryKey s.month s.year) =
        l.filter (fun t => t.date.formatJanuary = s.month ∧ t.date.year = s.year)) := by
  replace h := (getMonthlySummary_iff l summaries).1 h
  have hs1 : s ∈ summariesOf l := (List.Perm.mem_iff h).1 hs
  obtain ⟨k, hk⟩ := (mem_summariesOf l s).1 hs1
  have hkey := key_of_groupSummary l k s hk
  subst hkey
  obtain ⟨t, rest, hg, hm, hy, hi, he, hn⟩ := groupSummary_eq_some _ _ hk
  refine ⟨by rw [hg]; simp, hi, he, hn, fun hr => ?_⟩
  obtain ⟨htl, htk⟩ := groupOf_head_key l _ t rest hg
  unfold groupOf
  apply List.filter_congr
  intro u hu
  rw [← htk, hm, hy]
  have := key_eq_iff_of_inRange u t (hr u hu) (hr t htl)
  simp only [this]

/-- C2, witness: the November record of the seed data lying across October
and November 2026. -/
theorem monthlySummary_totals_witness :
    novemberRecord ∈ (summariesOf seedTwoMonths).reverse ∧
    groupOf seedTwoMonths (summaryKey novemberRecord.month novemberRecord.year) ≠ [] ∧
    novemberRecord.totalIncome = totalOf (ascii "income")
      (groupOf seedTwoMonths (summaryKey novemberRecord.month novemberRecord.year)) ∧
    novemberRecord.totalExpenses = totalOf (ascii "expense")
      (groupOf seedTwoMonths (summaryKey novemberRecord.month novemberRecord.year)) ∧
    novemberRecord.netAmount =
      F64.sub novemberRecord.totalIncome novemberRecord.totalExpenses ∧
    groupOf seedTwoMonths (summaryKey novemberRecord.month novemberRecord.year) =
      seedTwoMonths.filter
        (fun t => t.date.formatJanuary = novemberRecord.month ∧
          t.date.year = novemberRecord.year) :=
  have hs : novemberRecord ∈ (summariesOf seedTwoMonths).reverse := by
    set_option exponentiation.threshold 4096 in
    set_option maxRecDepth 100000 in
    decide
  have w := monthlySummary_totals seedTwoMonths (summariesOf seedTwoMonths).reverse
    ((getMonthlySummary_iff _ _).2 (List.reverse_perm _)) novemberRecord hs
  ⟨hs, w.1, w.2.1, w.2.2.1, w.2.2.2.1, w.2.2.2.2 (by decide)⟩

/-! ## C3 -/

/-- C3. For every collection `l` and every id: the loop of
`deleteTransaction` finds a match, and the response has status 200, exactly
when some transaction of `l` has the id; and when one has, `l` splits as
`pre ++ t :: post` with `t` the first transaction having the id, the
response is 200 with the message "Transaction deleted", the new collection
is `pre ++ post`, and its length is one less than that of `l`. -/
theorem deleteTransaction_found (l : List Transaction) (id : GoString) :
    ((deleteIndex id l).isSome = true ↔ ∃ t ∈ l, t.id = id) ∧
    ((deleteTransaction l id).2.status = 200 ↔ ∃ t ∈ l, t.id = id) ∧
    ((∃ t ∈ l, t.id = id) →
      ∃ pre t post, l = pre ++ t :: post ∧ t.id = id ∧ (∀ x ∈ pre, x.id ≠ id) ∧
        deleteTransaction l id =
          (pre ++ post, ⟨200, .message (ascii "Transaction deleted")⟩) ∧
        (deleteTransaction l id).1.length + 1 = l.length) := by
  have key : (deleteIndex id l).isSome = true ↔ ∃ t ∈ l, t.id = id := by
    rw [← Option.ne_none_iff_isSome, Ne, deleteIndex_eq_none]
    push_neg
    rfl
  have status : (deleteTransaction l id).2.status = 200 ↔ (deleteIndex id l).isSome = true := by
    unfold deleteTransaction
    cases deleteIndex id l <;> simp
  refine ⟨key, status.trans key, fun h => ?_⟩
  obtain ⟨i, hi⟩ := Option.isSome_iff_exists.1 (key.2 h)
  obtain ⟨pre, t, post, hl, ht, hpre, hlen⟩ := deleteIndex_eq_some id l i hi
  have hd : deleteTransaction l id =
      (pre ++ post, ⟨200, .message (ascii "Transaction deleted")⟩) := by
    unfold deleteTransaction
    rw [hi]
    simp only
    rw [hl, ← hlen, take_drop_split]
  refine ⟨pre, t, post, hl, ht, hpre, hd, ?_⟩
  rw [hd, hl]
  simp
  omega

/-- C3, witness: deleting the id "2" from the seed data. -/
theorem deleteTransaction_found_witness :
    (∃ t ∈ seedOctober, t.id = ascii "2") ∧
    ∃ pre t post, seedOctober = pre ++ t :: post ∧ t.id = ascii "2" ∧
      (∀ x ∈ pre, x.id ≠ ascii "2") ∧
      deleteTransaction seedOctober (ascii "2") =
        (pre ++ post, ⟨200, .message (ascii "Transaction deleted")⟩) ∧
      (deleteTransaction seedOctober (ascii "2")).1.length + 1 = seedOctober.length :=
  ⟨by decide, (deleteTransaction_found seedOctober (ascii "2")).2.2 (by decide)⟩

/-! ## C4 -/

/-- C4. For every collection and every id that no stored transaction has,
`deleteTransaction` answers 404 with the error "Transaction not found" and
the collection is unchanged. -/
theorem deleteTransaction_not_found (l : List Transaction) (id : GoString)
    (h : ∀ t ∈ l, t.id ≠ id) :
    deleteTransaction l id = (l, ⟨404, .error (ascii "Transaction not found")⟩) := by
  unfold deleteTransaction
  rw [(deleteIndex_eq_none id l).2 h]

/-- C4, witness: deleting the id "does-not-exist" from the seed data. -/
theorem deleteTransaction_not_found_witness :
    (∀ t ∈ seedOctober, t.id ≠ ascii "does-not-exist") ∧
    deleteTransaction seedOctober (ascii "does-not-exist") =
      (seedOctober, ⟨404, .error (ascii "Transaction not found")⟩) :=
  ⟨by decide, deleteTransaction_not_found seedOctober (ascii "does-not-exist") (by decide)⟩

/-! ## C5 -/

/-- C5, counterexample. Two payloads added within one second get the same
id. The id is present; after one `deleteTransaction` of it the list of
`getTransactions` still holds a transaction with that id, and a second
`deleteTransaction` answers 200, not 404. -/
theorem delete_twice_same_second :
    (∃ t ∈ addedTwice, t.id = stampId) ∧
    (deleteTransaction addedTwice stampId).2 =
      ⟨200, .message (ascii "Transaction deleted")⟩ ∧
    getTransactions (deleteTransaction addedTwice stampId).1 =
      ⟨200, .transactions [{ payloadOther with id := stampId }]⟩ ∧
    (∃ t ∈ (deleteTransaction addedTwice stampId).1, t.id = stampId) ∧
    (deleteTransaction (deleteTransaction addedTwice stampId).1 stampId).2 =
      ⟨200, .message (ascii "Transaction deleted")⟩ := by
  decide

/-- C5, amended. For every collection and every id that exactly one stored
transaction has: `deleteTransaction` answers 200, the list returned by
`getTransactions` afterwards holds no transaction with that id, and a second
`deleteTransaction` of the id answers 404 "Transaction not found" and leaves
the collection as it is. -/
theorem delete_then_absent (l : List Transaction) (id : GoString)
    (h : l.countP (fun t => t.id = id) = 1) :
    (deleteTransaction l id).2 = ⟨200, .message (ascii "Transaction deleted")⟩ ∧
    getTransactions (deleteTransaction l id).1 =
      ⟨200, .transactions (deleteTransaction l id).1⟩ ∧
    (∀ t ∈ (deleteTransaction l id).1, t.id ≠ id) ∧
    deleteTransaction (deleteTransaction l id).1 id =
      ((deleteTransaction l id).1, ⟨404, .error (ascii "Transaction not found")⟩) := by
  have hex : deleteIndex id l ≠ none := by
    intro hn
    have := (deleteIndex_eq_none id l).1 hn
    have h0 : l.countP (fun t => t.id = id) = 0 := by
      rw [List.countP_eq_zero]
      intro x hx
      simpa using this x hx
    omega
  obtain ⟨i, hi⟩ := Option.ne_none_iff_exists'.1 hex
  obtain ⟨pre, t, post, hl, ht, hpre, hlen⟩ := deleteIndex_eq_some id l i hi
  have hd : deleteTransaction l id =
      (pre ++ post, ⟨200, .message (ascii "Transaction deleted")⟩) := by
    unfold deleteTransaction
    rw [hi]
    simp only
    rw [hl, ← hlen, take_drop_split]
  have habs : ∀ x ∈ pre ++ post, x.id ≠ id := by
    rw [hl] at h
    exact countP_id_split pre post t id ht hpre h
  rw [hd]
  refine ⟨rfl, rfl, habs, ?_⟩
  unfold deleteTransaction
  rw [(deleteIndex_eq_none id (pre ++ post)).2 habs]

/-- C5, witness: deleting the id "2" from the seed data, twice. -/
theorem delete_then_absent_witness :
    seedOctober.countP (fun t => t.id = ascii "2") = 1 ∧
    (deleteTransaction seedOctober (ascii "2")).2 =
      ⟨200, .message (ascii "Transaction deleted")⟩ ∧
    getTransactions (deleteTransaction seedOctober (ascii "2")).1 =
      ⟨200, .transactions (deleteTransaction seedOctober (ascii "2")).1⟩ ∧
    (∀ t ∈ (deleteTransaction seedOctober (ascii "2")).1, t.id ≠ ascii "2") ∧
    deleteTransaction (deleteTransaction seedOctober (ascii "2")).1 (ascii "2") =
      ((deleteTransaction seedOctober (ascii "2")).1,
        ⟨404, .error (ascii "Transaction not found")⟩) :=
  ⟨by decide, delete_then_absent seedOctober (ascii "2") (by decide)⟩

/-! ## C6 -/

/-- C6. For every collection `l`, every parsed payload `p` and every clock
reading `now`, `addTransaction` answers 201 with a record `r` that has the
amount, category, description, date and type of `p`; the new collection is
`l` with `r` appended; the id of the payload plays no part in the outcome.
The id of `r` is the timestamp of `now` to the second: it has at least 14
bytes and so is not empty, two clock readings that agree in year, month,
day, hour, minute and second give the same outcome, and for a year in
0..9999 (with day, hour, minute and second below 100, as every clock reading
has them) the id is the fourteen decimal digits YYYYMMDDhhmmss of `now`. -/
theorem addTransaction_ok (l : List Transaction) (p : Transaction) (now : Time) :
    ∃ r : Transaction,
      addTransaction l (.ok p) now = (l ++ [r], ⟨201, .transaction r⟩) ∧
      r.amount = p.amount ∧ r.category = p.category ∧ r.description = p.description ∧
      r.date = p.date ∧ r.type = p.type ∧
      r.id = now.format20060102150405 ∧ r.id ≠ [] ∧ 14 ≤ r.id.length ∧
      (∀ other : GoString,
        addTransaction l (.ok { p with id := other }) now = addTransaction l (.ok p) now) ∧
      (∀ later : Time, later.year = now.year → later.month = now.month →
        later.day = now.day → later.hour = now.hour → later.minute = now.minute →
        later.second = now.second →
        addTransaction l (.ok p) later = addTransaction l (.ok p) now) ∧
      (0 ≤ now.year ∧ now.year ≤ 9999 → now.day < 100 → now.hour < 100 →
        now.minute < 100 → now.second < 100 →
        r.id =
          [48 + now.year.toNat / 1000, 48 + now.year.toNat / 100 % 10,
           48 + now.year.toNat / 10 % 10, 48 + now.year.toNat % 10,
           48 + now.month.number / 10, 48 + now.month.number % 10,
           48 + now.day / 10, 48 + now.day % 10,
           48 + now.hour / 10, 48 + now.hour % 10,
           48 + now.minute / 10, 48 + now.minute % 10,
           48 + now.second / 10, 48 + now.second % 10]) := by
  refine ⟨{ p with id := now.format20060102150405 }, rfl, rfl, rfl, rfl, rfl, rfl, rfl, ?_,
    format_length now, fun _ => rfl, ?_, format_digits now⟩
  · intro h
    have := format_length now
    simp only at h
    rw [h] at this
    simp at this
  · intro later h1 h2 h3 h4 h5 h6
    simp only [addTransaction, Time.format20060102150405, h1, h2, h3, h4, h5, h6]

/-- C6, witness: the payload added to the seed data at 2026-11-01 23:05:09
gets the id "20261101230509". -/
theorem addTransaction_ok_witness :
    ∃ r : Transaction,
      addTransaction seedOctober (.ok payload) stamp =
        (seedOctober ++ [r], ⟨201, .transaction r⟩) ∧
      r.id = ascii "20261101230509" := by
  obtain ⟨r, h1, -, -, -, -, -, -, -, -, -, -, hid⟩ :=
    addTransaction_ok seedOctober payload stamp
  exact ⟨r, h1, (hid (by decide) (by decide) (by decide) (by decide) (by decide)).trans
    (by decide)⟩

/-! ## C7 -/

/-- C7, counterexample. The same payload added twice within one second: the
second call stores a record equal to the one already there, and the list of
`getTransactions` holds the stored record twice. -/
theorem add_same_payload_twice :
    (addTransaction addedOnce (.ok payload) stamp).2 =
      ⟨201, .transaction { payload with id := stampId }⟩ ∧
    getTransactions (addTransaction addedOnce (.ok payload) stamp).1 =
      ⟨200, .transactions [{ payload with id := stampId }, { payload with id := stampId }]⟩ ∧
    (addTransaction addedOnce (.ok payload) stamp).1.count { payload with id := stampId } = 2 := by
  decide

/-- C7, amended. For every collection `l`, every parsed payload `p` and every
clock reading, with `r` the stored record that `addTransaction` returns: the
list returned by `getTransactions` afterwards is `l` with `r` at the end; it
holds `r` once more than `l` did, and so exactly once if and only if `l` held
no transaction equal to `r` (as when no stored transaction has the assigned
id). -/
theorem add_then_listed_once (l : List Transaction) (p : Transaction) (now : Time)
    (r : Transaction) (hr : (addTransaction l (.ok p) now).2 = ⟨201, .transaction r⟩) :
    getTransactions (addTransaction l (.ok p) now).1 = ⟨200, .transactions (l ++ [r])⟩ ∧
    (l ++ [r]).getLast? = some r ∧
    (l ++ [r]).count r = l.count r + 1 ∧
    ((l ++ [r]).count r = 1 ↔ r ∉ l) := by
  have hr2 : r = { p with id := now.format20060102150405 } := by
    simp only [addTransaction, Response.mk.injEq, Body.transaction.injEq, true_and] at hr
    exact hr.symm
  have hc : (l ++ [r]).count r = l.count r + 1 := by
    rw [List.count_append]
    simp
  refine ⟨?_, by simp, hc, ?_⟩
  · rw [hr2]
    rfl
  · rw [hc]
    constructor
    · intro h hm
      have := List.count_pos_iff.2 hm
      omega
    · intro h
      rw [List.count_eq_zero_of_not_mem h]

/-- C7, witness: the payload added to the seed data, which holds no
transaction equal to the stored record; and the payload added a second time
within the same second, where the list holds the stored record twice. -/
theorem add_then_listed_once_witness :
    ((addTransaction seedOctober (.ok payload) stamp).2 =
      ⟨201, .transaction { payload with id := stampId }⟩ ∧
    { payload with id := stampId } ∉ seedOctober ∧
    getTransactions (addTransaction seedOctober (.ok payload) stamp).1 =
      ⟨200, .transactions (seedOctober ++ [{ payload with id := stampId }])⟩ ∧
    (seedOctober ++ [{ payload with id := stampId }]).getLast? =
      some { payload with id := stampId } ∧
    (seedOctober ++ [{ payload with id := stampId }]).count { payload with id := stampId } =
      1) ∧
    ((addTransaction addedOnce (.ok payload) stamp).2 =
      ⟨201, .transaction { payload with id := stampId }⟩ ∧
    getTransactions (addTransaction addedOnce (.ok payload) stamp).1 =
      ⟨200, .transactions (addedOnce ++ [{ payload with id := stampId }])⟩ ∧
    (addedOnce ++ [{ payload with id := stampId }]).count { payload with id := stampId } =
      addedOnce.count { payload with id := stampId } + 1) :=
  have w := add_then_listed_once seedOctober payload stamp { payload with id := stampId }
    (by decide)
  have v := add_then_listed_once addedOnce payload stamp { payload with id := stampId }
    (by decide)
  ⟨⟨by decide, by decide, w.1, w.2.1, w.2.2.2.2 (by decide)⟩, by decide, v.1, v.2.2.1⟩

/-! ## C8 -/

/-- C8, counterexample. Incomes of 0.1, 0.2 and 0.3 on one day, and the same
three in the opposite order: the first collection sums to
0.6000000000000001 and the second to 0.6, so the two results are not equal
as multisets. -/
theorem monthlySummary_tenths :
    tenths.Perm tenthsReversed ∧
    getMonthlySummary tenths
      ⟨200, .summaries
        [{ month := ascii "January", year := 2024, totalIncome := float06up,
           totalExpenses := F64.zero, netAmount := float06up }]⟩ ∧
    getMonthlySummary tenthsReversed
      ⟨200, .summaries
        [{ month := ascii "January", year := 2024, totalIncome := float06,
           totalExpenses := F64.zero, netAmount := float06 }]⟩ ∧
    ¬ (summariesOf tenths).Perm (summariesOf tenthsReversed) := by
  set_option exponentiation.threshold 4096 in
  set_option maxRecDepth 100000 in
  decide

/-- C8, amended. For every two collections that are permutations of each
other and every two lists of summaries `getMonthlySummary` may write for
them: when the years lie in 0..9999 the two lists carry the same (month
name, year) pairs, each once; and when every group has its transactions in
the same order in both collections, the two lists are equal as multisets of
records. -/
theorem monthlySummary_perm (l1 l2 : List Transaction) (s1 s2 : List MonthlySummary)
    (hp : l1.Perm l2) (h1 : getMonthlySummary l1 ⟨200, .summaries s1⟩)
    (h2 : getMonthlySummary l2 ⟨200, .summaries s2⟩) :
    ((∀ t ∈ l1, 0 ≤ t.date.year ∧ t.date.year ≤ 9999) →
      (s1.map MonthlySummary.monthYear).Perm (s2.map MonthlySummary.monthYear) ∧
      (s1.map MonthlySummary.monthYear).Nodup) ∧
    ((∀ t ∈ l1, groupOf l1 t.key = groupOf l2 t.key) → s1.Perm s2) := by
  replace h1 := (getMonthlySummary_iff l1 s1).1 h1
  replace h2 := (getMonthlySummary_iff l2 s2).1 h2
  constructor
  · intro hr
    have hr2 : ∀ t ∈ l2, 0 ≤ t.date.year ∧ t.date.year ≤ 9999 :=
      fun t ht => hr t ((List.Perm.mem_iff hp).2 ht)
    have e1 := monthYear_perm_dedup l1 hr
    have e2 := monthYear_perm_dedup l2 hr2
    have e3 : ((l1.map Transaction.monthYear).dedup).Perm
        ((l2.map Transaction.monthYear).dedup) := List.Perm.dedup (List.Perm.map _ hp)
    exact ⟨(((List.Perm.map _ h1).trans e1).trans e3).trans
      (e2.symm.trans (List.Perm.map _ h2).symm),
      (List.Perm.nodup_iff (List.Perm.map _ h1)).2 (monthYear_nodup l1)⟩
  · intro hg
    have : (summariesOf l1).Perm (summariesOf l2) := by
      rw [List.perm_ext_iff_of_nodup (summariesOf_nodup l1) (summariesOf_nodup l2)]
      intro s
      simp only [mem_summariesOf, groupOf_congr_of_perm l1 l2 hp hg]
    exact (h1.trans this).trans h2.symm

/-- C8, witness: incomes in January, February and January, and the same
collection with the first two swapped, which keeps the order within each
month. -/
theorem monthlySummary_perm_witness :
    winter.Perm winterSwapped ∧
    (∀ t ∈ winter, 0 ≤ t.date.year ∧ t.date.year ≤ 9999) ∧
    (∀ t ∈ winter, groupOf winter t.key = groupOf winterSwapped t.key) ∧
    ((summariesOf winter).reverse.map MonthlySummary.monthYear).Perm
      ((summariesOf winterSwapped).map MonthlySummary.monthYear) ∧
    (summariesOf winter).reverse.Perm (summariesOf winterSwapped) :=
  have w := monthlySummary_perm winter winterSwapped (summariesOf winter).reverse
    (summariesOf winterSwapped) (by decide) ((getMonthlySummary_iff _ _).2 (List.reverse_perm _))
    ((getMonthlySummary_iff _ _).2 (List.Perm.refl _))
  ⟨by decide, by decide, by decide, (w.1 (by decide)).1, w.2 (by decide)⟩

/-! ## C9 -/

/-- C9, counterexample. The seed data with its three dates in October 2026:
the single summary record has `totalExpenses` equal to the float64 sum
45.99 + 25, which is the float64 next above that of 70.99 and is not within
half a unit in the last place of 70.99. -/
theorem seed_expenses_not_7099 :
    getMonthlySummary seedOctober
      ⟨200, .summaries
        [{ month := ascii "October", year := 2026, totalIncome := F64.ofNat 1500,
           totalExpenses := float7099up, netAmount := float142901 }]⟩ ∧
    float7099.IsNearest 7099 100 ∧
    float7099up ≠ float7099 ∧
    ¬ float7099up.IsNearest 7099 100 := by
  set_option exponentiation.threshold 4096 in
  set_option maxRecDepth 100000 in
  decide

/-- C9, amended. For the three seed transactions of `addTestData`, whenever
their dates fall in the same month and year, `getMonthlySummary` writes
exactly one record, for that month and year, with `totalIncome` 1500,
`totalExpenses` the float64 sum 45.99 + 25, which is 70.99000000000001, and
`netAmount` 1429.01. -/
theorem seed_summary (d5 d3 d1 : Time) (summaries : List MonthlySummary)
    (h3 : d3.month = d5.month ∧ d3.year = d5.year)
    (h1 : d1.month = d5.month ∧ d1.year = d5.year)
    (h : getMonthlySummary (addTestData [] d5 d3 d1) ⟨200, .summaries summaries⟩) :
    summaries =
      [{ month := d5.formatJanuary, year := d5.year, totalIncome := F64.ofNat 1500,
         totalExpenses := F64.add amount4599 (F64.ofNat 25), netAmount := float142901 }] ∧
    F64.add amount4599 (F64.ofNat 25) = float7099up ∧
    float7099up.IsNearest 7099000000000001 100000000000000 ∧
    float142901.IsNearest 142901 100 := by
  obtain ⟨a1, a2, a3, a4, a5, a6⟩ := seed_float_sums
  have hsum : summariesOf (addTestData [] d5 d3 d1) =
      [{ month := d5.formatJanuary, year := d5.year, totalIncome := F64.ofNat 1500,
         totalExpenses := float7099up, netAmount := float142901 }] := by
    have hie : ¬ ascii "expense" = ascii "income" := by decide
    simp [summariesOf, buildSummaryMap, addTestData, summaryStep_eq, SummaryMap.get,
      SummaryMap.set, stepRecord, Transaction.key, Time.formatJanuary, h3.1, h3.2, h1.1, h1.2,
      hie, a1, a2, a3, a4, a5, a6]
  replace h := (getMonthlySummary_iff _ _).1 h
  rw [hsum] at h
  rw [a5]
  exact ⟨List.perm_singleton.1 h, rfl, float_constants.2.2.2.2.2.2.2.1,
    float_constants.2.2.2.2.2.2.2.2⟩

/-- C9, witness: the seed data created on 1 November 2026. -/
theorem seed_summary_witness :
    summariesOf seedOctober =
      [{ month := ascii "October", year := 2026, totalIncome := F64.ofNat 1500,
         totalExpenses := F64.add amount4599 (F64.ofNat 25), netAmount := float142901 }] :=
  (seed_summary (noon 2026 .October 27) (noon 2026 .October 29) (noon 2026 .October 31)
    (summariesOf seedOctober) (by decide) (by decide)
    ((getMonthlySummary_iff _ _).2 (List.Perm.refl _))).1

/-! ## C10 -/

/-- C10. The grouping key of a transaction is its month name, then "-", then
`string(year)`; `string(year)` is the UTF-8 encoding of the code point
numbered `year` for a year in 0..9999 and the encoding EF BF BD of U+FFFD
for a number that is not a valid code point. For every two transactions
whose years lie in 0..9999, the keys are equal exactly when the month names
are equal and the years are equal. -/
theorem key_eq_iff (t u : Transaction)
    (ht : 0 ≤ t.date.year ∧ t.date.year ≤ 9999)
    (hu : 0 ≤ u.date.year ∧ u.date.year ≤ 9999) :
    t.key = t.date.formatJanuary ++ ascii "-" ++ stringOfInt t.date.year ∧
    stringOfInt t.date.year = encodeRune t.date.year.toNat ∧
    (∀ x : Int, x < 0 ∨ 0x10FFFF < x ∨ (0xD800 ≤ x ∧ x ≤ 0xDFFF) →
      stringOfInt x = [0xEF, 0xBF, 0xBD]) ∧
    (t.key = u.key ↔
      t.date.formatJanuary = u.date.formatJanuary ∧ t.date.year = u.date.year) := by
  refine ⟨rfl, ?_, ?_, key_eq_iff_of_inRange t u ht hu⟩
  · unfold stringOfInt
    rw [if_pos (by omega)]
  · intro x hx
    unfold stringOfInt
    rw [if_neg (by omega)]
    decide

/-- C10, witness: the incomes of January and February 2024. -/
theorem key_eq_iff_witness :
    (incomeOn idA float01 (noon 2024 .January 1)).key =
      [74, 97, 110, 117, 97, 114, 121, 45, 0xDF, 0xA8] ∧
    ((incomeOn idA float01 (noon 2024 .January 1)).key =
        (incomeOn idB float02 (noon 2024 .February 1)).key ↔
      (noon 2024 .January 1).formatJanuary = (noon 2024 .February 1).formatJanuary ∧
        (noon 2024 .January 1).year = (noon 2024 .February 1).year) :=
  ⟨by decide,
    (key_eq_iff (incomeOn idA float01 (noon 2024 .January 1))
      (incomeOn idB float02 (noon 2024 .February 1)) (by decide) (by decide)).2.2.2⟩

end Fintrack
